import Mathlib

/-!
Verification of the link/path editing engine of `MapNetwork.tsx`.

The engine is embedded shallowly: coordinates are exact rationals (the
source computes with IEEE doubles; we model the real-number semantics of
the same arithmetic), stateful React `useState` updates become explicit
state passing on an `AppState` record, and the pointer/keyboard handlers
become a `step` function over a discrete `Event` type.
-/

namespace MapNetwork

/-! ## Data model (`MapNetwork.tsx` lines 19-35) -/

inductive DeviceStatus
  | available
  | connected
  | disabled
deriving DecidableEq, Repr

/-- `Device` record; `coords` is the stored `[lng, lat]` pair. -/
structure Device where
  id : String
  label : String
  coords : ℚ × ℚ
  status : DeviceStatus
  width : ℚ
  height : ℚ
deriving DecidableEq, Repr

inductive LinkStyle
  | straight
  | curved
  | custom
deriving DecidableEq, Repr

/-- `Link` record; `waypoints` are stored `[lat, lng]` pairs.  The source
declares `waypoints` and `curvy` as optional fields, modelled by `Option`
(`none` is JavaScript `undefined`). -/
structure Link where
  source : String
  target : String
  style : LinkStyle
  waypoints : Option (List (ℚ × ℚ)) := none
  curvy : Option Bool := none
deriving DecidableEq, Repr

/-! ## PathGeometry (`MapNetwork.tsx` lines 192-223) -/

/-- One quadratic-Bezier sample of `curvedPath` at parameter `t`.
In the source the control point is `mid + (px/plen)*k` with `px = -vy`,
`py = vx`, `plen = hypot(px,py) || 1` and `k = hypot(vx,vy)*curvature`.
Since `hypot(px,py) = hypot(vx,vy)`, the quotient collapses exactly to
`px*curvature` (also when the vector is zero: the `|| 1` guard makes the
offset `0 = px*curvature`), which eliminates the square roots. -/
def curveSample (a b : ℚ × ℚ) (curvature : ℚ) (t : ℚ) : ℚ × ℚ :=
  let vx := b.1 - a.1
  let vy := b.2 - a.2
  let cx := (a.1 + b.1) / 2 + (-vy) * curvature
  let cy := (a.2 + b.2) / 2 + vx * curvature
  let omt := 1 - t
  (omt * omt * a.1 + 2 * omt * t * cx + t * t * b.1,
   omt * omt * a.2 + 2 * omt * t * cy + t * t * b.2)

/-- `curvedPath(a, b, segments, curvature)`: `segments+1` Bezier samples at
`t = i/segments`, `i = 0, ..., segments` (source lines 192-201). -/
def curvedPath (a b : ℚ × ℚ) (segments : ℕ) (curvature : ℚ) : List (ℚ × ℚ) :=
  (List.range (segments + 1)).map fun i : ℕ =>
    curveSample a b curvature ((i : ℚ) / (segments : ℚ))

/-- One Catmull-Rom sample (source lines 206-209; the source multiplies by
`0.5`, written here as a division by `2`). -/
def crPoint (p0 p1 p2 p3 : ℚ × ℚ) (t : ℚ) : ℚ × ℚ :=
  let t2 := t * t
  let t3 := t2 * t
  ((2 * p1.1 + (-p0.1 + p2.1) * t + (2 * p0.1 - 5 * p1.1 + 4 * p2.1 - p3.1) * t2
      + (-p0.1 + 3 * p1.1 - 3 * p2.1 + p3.1) * t3) / 2,
   (2 * p1.2 + (-p0.2 + p2.2) * t + (2 * p0.2 - 5 * p1.2 + 4 * p2.2 - p3.2) * t2
      + (-p0.2 + 3 * p1.2 - 3 * p2.2 + p3.2) * t3) / 2)

/-- The inner sampling loop of `catmullRomSpline`: `n` samples at
`t = j/n`, `j = 0, ..., n-1`. -/
def crSeg (p0 p1 p2 p3 : ℚ × ℚ) (n : ℕ) : List (ℚ × ℚ) :=
  (List.range n).map fun j : ℕ => crPoint p0 p1 p2 p3 ((j : ℚ) / (n : ℚ))

/-- The outer loop of `catmullRomSpline`: every window of 4 consecutive
points of the padded sequence contributes one sampled segment. -/
def crWindows : List (ℚ × ℚ) → ℕ → List (ℚ × ℚ)
  | p0 :: p1 :: p2 :: p3 :: rest, n => crSeg p0 p1 p2 p3 n ++ crWindows (p1 :: p2 :: p3 :: rest) n
  | _, _ => []

/-- `catmullRomSpline(points, samplesPerSeg)` (source lines 202-212):
short inputs are returned unchanged; otherwise the input is padded by
duplicating the first and last point, each window of 4 is sampled, and the
true last control point is appended once. -/
def catmullRomSpline (points : List (ℚ × ℚ)) (samplesPerSeg : ℕ) : List (ℚ × ℚ) :=
  if points.length ≤ 2 then points
  else
    let lst := points.getLastD (0, 0)
    crWindows (points.headD (0, 0) :: points ++ [lst]) samplesPerSeg ++ [lst]

/-- Squared distance from `p` to the segment `a`-`b` after clamping the
projection parameter to `[0,1]`; the inner body of `nearestSegmentIndex`
(source lines 216-220).  `vv || 1e-9` guards the zero-length segment. -/
def segDist2 (a b p : ℚ × ℚ) : ℚ :=
  let vx := b.1 - a.1
  let vy := b.2 - a.2
  let wx := p.1 - a.1
  let wy := p.2 - a.2
  let vv0 := vx * vx + vy * vy
  let vv := if vv0 = 0 then 1 / 1000000000 else vv0
  let t := max 0 (min 1 ((vx * wx + vy * wy) / vv))
  let cx := a.1 + t * vx
  let cy := a.2 + t * vy
  (p.1 - cx) * (p.1 - cx) + (p.2 - cy) * (p.2 - cy)

/-- One iteration of the `bestI`/`bestD` loop of `nearestSegmentIndex`;
`none` models the initial `bestD = Infinity`. -/
def minStep (d : ℕ → ℚ) (acc : ℕ × Option ℚ) (i : ℕ) : ℕ × Option ℚ :=
  match acc.2 with
  | none => (i, some (d i))
  | some bd => if d i < bd then (i, some (d i)) else acc

/-- The `for(i=0;i<m;i++)` loop of `nearestSegmentIndex`, starting from
`bestI = 0`, `bestD = Infinity`. -/
def minLoop (d : ℕ → ℚ) (m : ℕ) : ℕ × Option ℚ :=
  (List.range m).foldl (minStep d) (0, none)

/-- Squared distance from `p` to the `i`-th consecutive segment of
`vertices`. -/
def segD (vertices : List (ℚ × ℚ)) (p : ℚ × ℚ) (i : ℕ) : ℚ :=
  segDist2 (vertices.getD i (0, 0)) (vertices.getD (i + 1) (0, 0)) p

/-- `nearestSegmentIndex(vertices, p)` (source lines 213-223). -/
def nearestSegmentIndex (vertices : List (ℚ × ℚ)) (p : ℚ × ℚ) : ℕ :=
  (minLoop (segD vertices p) (vertices.length - 1)).1

/-- The per-link geometry dispatch of `renderedLinks` (source lines
286-289): `straight` is `[A,B]`, `curved` is `curvedPath(A,B,28,0.28)`,
`custom` is the control polygon `[A, ...waypoints, B]`, splined when
`curvy`. -/
def computeRenderPath (A B : ℚ × ℚ) (style : LinkStyle) (waypoints : List (ℚ × ℚ))
    (curvy : Bool) : List (ℚ × ℚ) :=
  match style with
  | .straight => [A, B]
  | .curved => curvedPath A B 28 (28 / 100)
  | .custom =>
    let ctrl := A :: waypoints ++ [B]
    if curvy then catmullRomSpline ctrl 14 else ctrl

/-- `seedFromCurve` (source line 280): sample the 36-segment curve, drop
the endpoints, keep every `step`-th interior sample with
`step = max 1 (interior/samples)`. -/
def seedFromCurve (A B : ℚ × ℚ) (samples : ℕ := 10) : List (ℚ × ℚ) :=
  let curve := curvedPath A B 36 (28 / 100)
  let inner := (curve.drop 1).dropLast
  let step := max 1 (inner.length / samples)
  (inner.enum.filter fun x => x.1 % step == 0).map fun x => x.2

/-! ## GraphStore (`MapNetwork.tsx` lines 262-274) -/

/-- `findDevice` (source line 262). -/
def findDevice (devices : List Device) (id : String) : Option Device :=
  devices.find? fun d => d.id == id

/-- `findLink` (source line 263). -/
def findLink (links : List Link) (s t : String) : Option Link :=
  links.find? fun l => l.source == s && l.target == t

/-- Map a record update over exactly the links with the given ordered
endpoint pair; the common shape of `setLinkStyle` / `setLinkCurvy` /
`setLinkWaypoints` (source lines 271-273). -/
def updLinks (links : List Link) (s t : String) (f : Link → Link) : List Link :=
  links.map fun l => if l.source == s && l.target == t then f l else l

def setLinkStyle (links : List Link) (s t : String) (style : LinkStyle) : List Link :=
  updLinks links s t fun l => { l with style := style }

def setLinkCurvy (links : List Link) (s t : String) (curvy : Bool) : List Link :=
  updLinks links s t fun l => { l with curvy := some curvy }

def setLinkWaypoints (links : List Link) (s t : String) (wps : List (ℚ × ℚ)) : List Link :=
  updLinks links s t fun l => { l with waypoints := some wps }

/-- `addLink` (source line 270): append a fresh `straight` link with empty
waypoints unless the exact ordered pair is already present. -/
def addLink (links : List Link) (s t : String) : List Link :=
  if links.any fun e => e.source == s && e.target == t then links
  else links ++ [{ source := s, target := t, style := .straight, waypoints := some [],
                   curvy := none }]

/-- The geometry query exposed to the renderer: resolve both endpoint
devices (skipping the link when one is missing, source line 283), convert
the stored `[lng,lat]` coordinates to `[lat,lng]` render points (line 285)
and dispatch on the style. -/
def renderPath (devices : List Device) (l : Link) : Option (List (ℚ × ℚ)) :=
  match findDevice devices l.source, findDevice devices l.target with
  | some a, some b =>
    some (computeRenderPath (a.coords.2, a.coords.1) (b.coords.2, b.coords.1)
      l.style (l.waypoints.getD []) (l.curvy.getD false))
  | _, _ => none

/-! ## EditSession state (`MapNetwork.tsx` lines 256-257) -/

/-- The `editingLink` state value. -/
structure EditTarget where
  source : String
  target : String
deriving DecidableEq, Repr

/-- The `draggingWp` state value. -/
structure DragTarget where
  source : String
  target : String
  index : ℕ
deriving DecidableEq, Repr

/-- The mutable state of the component: device and link collections plus
the edit-session state machine (`editingLink` = `EditingLink`/`Idle`,
`draggingWp` = the `DraggingWaypoint` sub-state). -/
structure AppState where
  devices : List Device
  links : List Link
  editingLink : Option EditTarget := none
  draggingWp : Option DragTarget := none
deriving DecidableEq, Repr

/-- `removeDevice` (source line 269): drop the device, drop every link
whose source or target is `id`, and clear `editingLink` when it references
`id`.  (`draggingWp` is not touched by the source.) -/
def removeDevice (st : AppState) (id : String) : AppState :=
  { st with
    devices := st.devices.filter fun d => !(d.id == id)
    links := st.links.filter fun l => !(l.source == id) && !(l.target == id)
    editingLink := st.editingLink.filter fun e => !(e.source == id || e.target == id) }

/-- `removeLink` (source line 274). -/
def removeLink (st : AppState) (s t : String) : AppState :=
  { st with
    links := st.links.filter fun l => !(l.source == s && l.target == t)
    editingLink := st.editingLink.filter fun e => !(e.source == s && e.target == t) }

/-- `insertWp` (source line 279): hit-test the click point against the
control polygon `[A, ...waypoints, B]` and insert the point at the
returned segment index. -/
def insertWpIdx (l : Link) (a b : Device) (p : ℚ × ℚ) : ℕ :=
  nearestSegmentIndex ((a.coords.2, a.coords.1) :: l.waypoints.getD []
    ++ [(b.coords.2, b.coords.1)]) p

/-! ## EditSession events and transitions -/

/-- The discrete interaction events fed to the component's handlers. -/
inductive Event
  | removeDevice (id : String)
  | addLink (s t : String)
  | removeLink (s t : String)
  | contextMenuLink (s t : String)
  | contextMenuMap
  | escape
  | pathClick (s t : String) (p : ℚ × ℚ)
  | pathPress (s t : String) (p : ℚ × ℚ)
  | dragStart (i : ℕ)
  | dragMove (p : ℚ × ℚ)
  | dragEnd (i : ℕ) (p : ℚ × ℚ)
  | mouseUp
  | altClickHandle (i : ℕ)
  | setStyle (s t : String) (style : LinkStyle)
deriving DecidableEq, Repr

/-- The synchronous transition function.  Each branch mirrors one handler
of the source; events originating from rendered elements (a `Polyline`, a
waypoint `Marker`) carry the rendering guards of lines 283 and 304-307 as
explicit matches, since such an event cannot fire when the element is not
rendered. -/
def step (st : AppState) : Event → AppState
  | .removeDevice id => removeDevice st id
  | .addLink s t => { st with links := addLink st.links s t }
  | .removeLink s t => removeLink st s t
  | .contextMenuLink s t =>
    -- the `onContextMenu` handler of a rendered link (source line 291)
    match findLink st.links s t, findDevice st.devices s, findDevice st.devices t with
    | some l, some a, some b =>
      let links' :=
        if l.style = .curved then
          setLinkWaypoints (setLinkCurvy (setLinkStyle st.links s t .custom) s t true) s t
            (seedFromCurve (a.coords.2, a.coords.1) (b.coords.2, b.coords.1))
        else if l.style = .straight then
          let base := setLinkCurvy (setLinkStyle st.links s t .custom) s t false
          if l.waypoints = none then setLinkWaypoints base s t [] else base
        else st.links
      { st with links := links', editingLink := some ⟨s, t⟩ }
    | _, _, _ => st
  | .contextMenuMap =>
    -- map-level `contextmenu` (source line 301)
    if st.editingLink.isSome then { st with editingLink := none, draggingWp := none } else st
  | .escape =>
    -- the Escape branch of `onKey` (source line 276)
    if st.editingLink.isSome then { st with editingLink := none, draggingWp := none } else st
  | .pathClick s t p =>
    -- `onClick` of a rendered link (source line 292)
    match findLink st.links s t, findDevice st.devices s, findDevice st.devices t with
    | some l, some a, some b =>
      if st.editingLink = some ⟨s, t⟩ ∧ l.style = .custom then
        { st with links := (setLinkWaypoints st.links s t
            ((l.waypoints.getD []).insertIdx (insertWpIdx l a b p) p)) }
      else st
    | _, _, _ => st
  | .pathPress s t p =>
    -- `onMouseDown` of a rendered link (source line 293)
    match findLink st.links s t, findDevice st.devices s, findDevice st.devices t with
    | some l, some a, some b =>
      if st.editingLink = some ⟨s, t⟩ ∧ l.style = .custom then
        { st with
          links := (setLinkWaypoints st.links s t
            ((l.waypoints.getD []).insertIdx (insertWpIdx l a b p) p))
          draggingWp := some ⟨s, t, insertWpIdx l a b p⟩ }
      else st
    | _, _, _ => st
  | .dragStart i =>
    -- `dragstart` of waypoint handle `i` (source line 310)
    match st.editingLink with
    | some e =>
      match findLink st.links e.source e.target with
      | some l =>
        if l.style = .custom ∧ i < (l.waypoints.getD []).length then
          { st with draggingWp := some ⟨e.source, e.target, i⟩ }
        else st
      | none => st
    | none => st
  | .dragMove p =>
    -- the `mousemove` handler of `WaypointDragOverlay` (source line 299)
    match st.draggingWp with
    | some w =>
      match findLink st.links w.source w.target with
      | some l =>
        if l.style = .custom then
          if w.index < (l.waypoints.getD []).length then
            { st with links := (setLinkWaypoints st.links w.source w.target
                ((l.waypoints.getD []).set w.index p)) }
          else st
        else st
      | none => st
    | none => st
  | .dragEnd i p =>
    -- `dragend` of waypoint handle `i` (source line 311)
    match st.editingLink with
    | some e =>
      match findLink st.links e.source e.target with
      | some l =>
        if l.style = .custom ∧ i < (l.waypoints.getD []).length then
          { st with
            links := (setLinkWaypoints st.links e.source e.target ((l.waypoints.getD []).set i p))
            draggingWp := none }
        else st
      | none => st
    | none => st
  | .mouseUp =>
    -- the `mouseup` handler of `WaypointDragOverlay` (source line 300)
    { st with draggingWp := none }
  | .altClickHandle i =>
    -- alt-`click` of waypoint handle `i` (source line 312)
    match st.editingLink with
    | some e =>
      match findLink st.links e.source e.target with
      | some l =>
        if l.style = .custom ∧ i < (l.waypoints.getD []).length then
          { st with links := (setLinkWaypoints st.links e.source e.target
              (((l.waypoints.getD []).enum.filter fun x => x.1 != i).map fun x => x.2)) }
        else st
      | none => st
    | none => st
  | .setStyle s t sty =>
    -- the style `select` handler (source lines 443-446)
    match findLink st.links s t with
    | some l =>
      match sty with
      | .straight =>
        { st with
          links := (setLinkCurvy (setLinkWaypoints (setLinkStyle st.links s t .straight) s t [])
            s t false)
          editingLink := if st.editingLink = some ⟨s, t⟩ then none else st.editingLink }
      | .curved =>
        { st with
          links := (setLinkCurvy (setLinkWaypoints (setLinkStyle st.links s t .curved) s t [])
            s t true)
          editingLink := if st.editingLink = some ⟨s, t⟩ then none else st.editingLink }
      | .custom =>
        let base := setLinkStyle st.links s t .custom
        if l.style = .curved then
          { st with links :=
              (match findDevice st.devices s, findDevice st.devices t with
              | some a, some b =>
                setLinkWaypoints (setLinkCurvy base s t true) s t
                  (seedFromCurve (a.coords.2, a.coords.1) (b.coords.2, b.coords.1))
              | _, _ => setLinkCurvy base s t true) }
        else
          let base2 := setLinkCurvy base s t (l.curvy.getD false)
          { st with links := if l.waypoints = none then setLinkWaypoints base2 s t [] else base2 }
    | none => st

/-- Fold a list of events through `step`. -/
def applyEvents (st : AppState) (es : List Event) : AppState :=
  es.foldl step st

/-- The `DraggingWaypoint`-implies-`EditingLink` session invariant of the
specification: whenever a waypoint drag is active, the same link is in
edit mode. -/
def sessionInvariantB (st : AppState) : Bool :=
  match st.draggingWp, st.editingLink with
  | none, _ => true
  | some _, none => false
  | some w, some e => w.source == e.source && w.target == e.target

/-- The `sampleData` constant of the source (lines 37-50). -/
def sampleDevices : List Device :=
  [⟨"a", "Bangkok", (100.5018, 13.7563), .available, 0, 0⟩,
   ⟨"b", "Tokyo", (139.6917, 35.6895), .connected, 0, 0⟩,
   ⟨"c", "Paris", (2.3522, 48.8566), .available, 0, 0⟩,
   ⟨"d", "New York", (-74.006, 40.7128), .disabled, 0, 0⟩]

/-- The `sampleData` links (lines 44-49). -/
def sampleLinks : List Link :=
  [⟨"a", "b", .straight, none, none⟩,
   ⟨"b", "c", .curved, none, none⟩,
   ⟨"a", "c", .straight, none, none⟩,
   ⟨"c", "d", .custom, some [(45, 10)], some false⟩]

/-- The initial component state. -/
def initState : AppState :=
  { devices := sampleDevices, links := sampleLinks }

/-- A store reached from the empty store by `addLink "a" "b"`: the link is
dangling (`addLink` does not validate device ids) and no device `"a"`
exists. -/
def danglingState : AppState :=
  applyEvents { devices := [], links := [] } [.addLink "a" "b"]

/-- A state reached from the sample data by beginning an edit of the
custom link `("c","d")` and starting a drag of its waypoint `0`. -/
def dragState : AppState :=
  applyEvents initState [.contextMenuLink "c" "d", .dragStart 0]

/-- The events whose `step` branches never clear `editingLink` while
leaving `draggingWp` set (all events except `removeDevice`, `removeLink`,
`contextMenuLink` and `setStyle`). -/
def sessionSafe : Event → Bool
  | .escape => true
  | .mouseUp => true
  | .contextMenuMap => true
  | .dragStart _ => true
  | .dragMove _ => true
  | .dragEnd _ _ => true
  | .pathClick _ _ _ => true
  | .pathPress _ _ _ => true
  | .altClickHandle _ => true
  | .addLink _ _ => true
  | _ => false

/-- Devices for the begin-edit-on-curved scenario: endpoints at
`(lat,lng) = (0,0)` and `(0,10)`. -/
def curvedDevices : List Device :=
  [⟨"x", "X", (0, 0), .available, 0, 0⟩, ⟨"y", "Y", (10, 0), .available, 0, 0⟩]

/-- A store holding a single `curved` link between `curvedDevices`. -/
def curvedState : AppState :=
  { devices := curvedDevices, links := [⟨"x", "y", .curved, none, none⟩] }

/-! ## Basic facts about the Bezier samples -/

theorem curveSample_zero (a b : ℚ × ℚ) (c : ℚ) : curveSample a b c 0 = a := by
  rw [Prod.ext_iff]
  constructor <;> (simp only [curveSample]; ring)

theorem curveSample_one (a b : ℚ × ℚ) (c : ℚ) : curveSample a b c 1 = b := by
  rw [Prod.ext_iff]
  constructor <;> (simp only [curveSample]; ring)

theorem curveSample_self (a : ℚ × ℚ) (c t : ℚ) : curveSample a a c t = a := by
  rw [Prod.ext_iff]
  constructor <;> (simp only [curveSample]; ring)

theorem curvedPath_length (a b : ℚ × ℚ) (n : ℕ) (c : ℚ) :
    (curvedPath a b n c).length = n + 1 := by
  simp [curvedPath]

theorem curvedPath_head? (a b : ℚ × ℚ) (n : ℕ) (c : ℚ) :
    (curvedPath a b n c).head? = some a := by
  rw [curvedPath, List.range_succ_eq_map]
  simp [curveSample_zero]

theorem curvedPath_getLast? (a b : ℚ × ℚ) (n : ℕ) (c : ℚ) :
    (curvedPath a b n c).getLast? = some (curveSample a b c ((n : ℚ) / (n : ℚ))) := by
  rw [curvedPath, List.range_succ, List.map_append]
  simp [List.getLast?_concat]

theorem curvedPath_getD (a b : ℚ × ℚ) (c : ℚ) (n i : ℕ) (h : i < n + 1) (d : ℚ × ℚ) :
    (curvedPath a b n c).getD i d = curveSample a b c ((i : ℚ) / (n : ℚ)) := by
  simp [curvedPath, List.getElem?_range h]

theorem curvedPath_self (a : ℚ × ℚ) (n : ℕ) (c : ℚ) :
    curvedPath a a n c = List.replicate (n + 1) a := by
  have hf : (fun i : ℕ => curveSample a a c ((i : ℚ) / (n : ℚ))) = fun _ : ℕ => a :=
    funext fun i => curveSample_self a c ((i : ℚ) / (n : ℚ))
  rw [curvedPath, hf, List.map_const']
  simp

/-! ## Basic facts about the Catmull-Rom spline -/

theorem crPoint_zero (p0 p1 p2 p3 : ℚ × ℚ) : crPoint p0 p1 p2 p3 0 = p1 := by
  rw [Prod.ext_iff]
  constructor <;> (simp only [crPoint]; ring)

/-- With at least one sample per segment, the first window's first sample
opens the concatenated sample list, and it is the window's second point. -/
theorem crWindows_head? (p0 p1 a b : ℚ × ℚ) (rest : List (ℚ × ℚ)) (n : ℕ) (hn : 0 < n) :
    (crWindows (p0 :: p1 :: a :: b :: rest) n).head? = some p1 := by
  obtain ⟨m, rfl⟩ : ∃ m, n = m + 1 := ⟨n - 1, by omega⟩
  rw [crWindows, crSeg, List.range_succ_eq_map]
  simp [crPoint_zero]

theorem catmullRomSpline_head? (points : List (ℚ × ℚ)) (n : ℕ) (hn : 0 < n) :
    (catmullRomSpline points n).head? = points.head? := by
  rw [catmullRomSpline]
  by_cases h : points.length ≤ 2
  · rw [if_pos h]
  · rw [if_neg h]
    match points, h with
    | [], h => exact absurd (by simp) h
    | [p], h => exact absurd (by simp) h
    | [p, q], h => exact absurd (by simp) h
    | p :: q :: r :: rest, _ =>
      show (crWindows (p :: p :: q :: r :: (rest ++ [(p :: q :: r :: rest).getLastD (0, 0)])) n
          ++ [(p :: q :: r :: rest).getLastD (0, 0)]).head? = _
      rw [List.head?_append, crWindows_head? p p q r _ n hn]
      rfl

theorem catmullRomSpline_getLast? (points : List (ℚ × ℚ)) (n : ℕ) :
    (catmullRomSpline points n).getLast? = points.getLast? := by
  rw [catmullRomSpline]
  by_cases h : points.length ≤ 2
  · rw [if_pos h]
  · rw [if_neg h]
    match points, h with
    | p :: rest, _ =>
      show (crWindows _ n ++ [(p :: rest).getLastD (0, 0)]).getLast? = _
      rw [List.getLast?_concat, List.getLastD_eq_getLast?]
      cases hl : (p :: rest).getLast? with
      | none => simp at hl
      | some x => rfl

/-! ## C1 -/

/-- C1: for every pair of devices A, B and a link between them with style
`straight`, the computed render path is exactly the two-point sequence
`[A, B]`. -/
theorem C1_straight_path (devices : List Device) (l : Link) (a b : Device)
    (ha : findDevice devices l.source = some a) (hb : findDevice devices l.target = some b)
    (hs : l.style = .straight) :
    renderPath devices l = some [(a.coords.2, a.coords.1), (b.coords.2, b.coords.1)] := by
  simp [renderPath, ha, hb, hs, computeRenderPath]

theorem C1_straight_path_witness :
    renderPath [⟨"a", "A", (1, 2), .available, 0, 0⟩, ⟨"b", "B", (3, 4), .available, 0, 0⟩]
      ⟨"a", "b", .straight, none, none⟩ = some [(2, 1), (4, 3)] :=
  C1_straight_path [⟨"a", "A", (1, 2), .available, 0, 0⟩, ⟨"b", "B", (3, 4), .available, 0, 0⟩]
    ⟨"a", "b", .straight, none, none⟩ ⟨"a", "A", (1, 2), .available, 0, 0⟩
    ⟨"b", "B", (3, 4), .available, 0, 0⟩ (by decide) (by decide) rfl

/-! ## C2 -/

/-- C2: for every pair of endpoints A, B, a `curved` link renders as
exactly 29 points whose first and last points are A and B; and for
`A ≠ B` the sample at `t = 0.5` (index 14) is displaced from the midpoint
of A-B by `0.28/2` times the left-perpendicular of `B - A`: it is
orthogonal to `B - A` and its squared length is
`|B-A|^2 * 0.28^2 / 4 = (|B-A| * 0.28 / 2)^2`. -/
theorem C2_curved_path (A B : ℚ × ℚ) (wps : List (ℚ × ℚ)) (c : Bool) :
    (computeRenderPath A B .curved wps c).length = 29 ∧
    (computeRenderPath A B .curved wps c).head? = some A ∧
    (computeRenderPath A B .curved wps c).getLast? = some B ∧
    (A ≠ B →
      ((computeRenderPath A B .curved wps c).getD 14 (0, 0)).1 - (A.1 + B.1) / 2
          = -(B.2 - A.2) * (14 / 100) ∧
      ((computeRenderPath A B .curved wps c).getD 14 (0, 0)).2 - (A.2 + B.2) / 2
          = (B.1 - A.1) * (14 / 100) ∧
      (((computeRenderPath A B .curved wps c).getD 14 (0, 0)).1 - (A.1 + B.1) / 2) * (B.1 - A.1)
        + (((computeRenderPath A B .curved wps c).getD 14 (0, 0)).2 - (A.2 + B.2) / 2) * (B.2 - A.2)
          = 0 ∧
      (((computeRenderPath A B .curved wps c).getD 14 (0, 0)).1 - (A.1 + B.1) / 2) ^ 2
        + (((computeRenderPath A B .curved wps c).getD 14 (0, 0)).2 - (A.2 + B.2) / 2) ^ 2
          = ((B.1 - A.1) ^ 2 + (B.2 - A.2) ^ 2) * (28 / 100) ^ 2 / 4) := by
  have hq : (computeRenderPath A B .curved wps c).getD 14 (0, 0)
      = curveSample A B (28 / 100) (1 / 2) := by
    show (curvedPath A B 28 (28 / 100)).getD 14 (0, 0) = _
    rw [curvedPath_getD A B (28 / 100) 28 14 (by norm_num) (0, 0)]
    norm_num
  have hlast : (computeRenderPath A B .curved wps c).getLast? = some B := by
    show (curvedPath A B 28 (28 / 100)).getLast? = some B
    rw [curvedPath_getLast?]
    norm_num [curveSample_one]
  refine ⟨by simpa [computeRenderPath] using curvedPath_length A B 28 (28 / 100),
    curvedPath_head? A B 28 (28 / 100), hlast, fun _ => ?_⟩
  rw [hq]
  refine ⟨?_, ?_, ?_, ?_⟩ <;> (simp only [curveSample]; ring)

theorem C2_curved_path_witness :
    ((0 : ℚ), (0 : ℚ)) ≠ ((0 : ℚ), (10 : ℚ)) ∧
    (computeRenderPath (0, 0) (0, 10) .curved [] false).length = 29 ∧
    ((computeRenderPath (0, 0) (0, 10) .curved [] false).getD 14 (0, 0)).1 - (0 + 0) / 2
      = -(10 - 0) * (14 / 100) := by
  have h := C2_curved_path (0, 0) (0, 10) [] false
  exact ⟨by decide, h.1, (h.2.2.2 (by decide)).1⟩

/-! ## C10 -/

/-- C10: the geometry is total on degenerate self-loop inputs: with both
endpoints equal to A, `curvedPath` returns 29 copies of A, every style
still yields a well-formed path starting and ending at A, `segDist2` on
the zero-length segment A-A falls back to the `1e-9` guard and computes
the plain squared distance to A, and `nearestSegmentIndex` is defined on
the degenerate vertex list `[A, A]`. -/
theorem C10_self_loop (A p : ℚ × ℚ) (wps : List (ℚ × ℚ)) (c : Bool) :
    curvedPath A A 28 (28 / 100) = List.replicate 29 A ∧
    computeRenderPath A A .straight wps c = [A, A] ∧
    computeRenderPath A A .curved wps c = List.replicate 29 A ∧
    computeRenderPath A A .custom wps false = A :: wps ++ [A] ∧
    (computeRenderPath A A .custom wps true).head? = some A ∧
    (computeRenderPath A A .custom wps true).getLast? = some A ∧
    segDist2 A A p = (p.1 - A.1) * (p.1 - A.1) + (p.2 - A.2) * (p.2 - A.2) ∧
    nearestSegmentIndex [A, A] p = 0 := by
  refine ⟨curvedPath_self A 28 (28 / 100), rfl, curvedPath_self A 28 (28 / 100), by
    simp [computeRenderPath], ?_, ?_, ?_, ?_⟩
  · rw [show computeRenderPath A A .custom wps true = catmullRomSpline (A :: wps ++ [A]) 14
      from rfl, catmullRomSpline_head?]
    · rfl
    · norm_num
  · rw [show computeRenderPath A A .custom wps true = catmullRomSpline (A :: wps ++ [A]) 14
      from rfl, catmullRomSpline_getLast?,
      show A :: wps ++ [A] = (A :: wps) ++ [A] from rfl, List.getLast?_concat]
  · simp only [segDist2]
    norm_num
  · simp [nearestSegmentIndex, minLoop, List.range_succ, minStep]

/-! ## C3 -/

/-- C3: a `custom`, non-curvy link renders as exactly the control polygon
`[A, ...waypoints, B]`; a `custom`, curvy link renders with first point A
and last point B; and when the control polygon has at most 2 points the
curvy output equals the non-curvy passthrough. -/
theorem C3_custom_path (A B : ℚ × ℚ) (wps : List (ℚ × ℚ)) :
    computeRenderPath A B .custom wps false = A :: wps ++ [B] ∧
    (computeRenderPath A B .custom wps true).head? = some A ∧
    (computeRenderPath A B .custom wps true).getLast? = some B ∧
    ((A :: wps ++ [B]).length ≤ 2 →
      computeRenderPath A B .custom wps true = A :: wps ++ [B]) := by
  refine ⟨rfl, ?_, ?_, ?_⟩
  · rw [show computeRenderPath A B .custom wps true = catmullRomSpline (A :: wps ++ [B]) 14
      from rfl, catmullRomSpline_head? _ _ (by norm_num)]
    rfl
  · rw [show computeRenderPath A B .custom wps true = catmullRomSpline (A :: wps ++ [B]) 14
      from rfl, catmullRomSpline_getLast?,
      show A :: wps ++ [B] = (A :: wps) ++ [B] from rfl, List.getLast?_concat]
  · intro h
    rw [show computeRenderPath A B .custom wps true = catmullRomSpline (A :: wps ++ [B]) 14
      from rfl, catmullRomSpline, if_pos h]

theorem C3_custom_path_witness :
    computeRenderPath ((0 : ℚ), (0 : ℚ)) (1, 2) .custom [] false = [(0, 0), (1, 2)] ∧
    computeRenderPath ((0 : ℚ), (0 : ℚ)) (1, 2) .custom [] true = [(0, 0), (1, 2)] := by
  have h := C3_custom_path (0, 0) (1, 2) []
  exact ⟨h.1, h.2.2.2 (by decide)⟩

/-! ## C4 -/

theorem minLoop_succ (d : ℕ → ℚ) (n : ℕ) :
    minLoop d (n + 1) = minStep d (minLoop d n) n := by
  rw [minLoop, List.range_succ, List.foldl_append]
  rfl

/-- Correctness of the `bestI`/`bestD` loop: for a nonempty index range
the result is in range, minimizes `d`, and is the first minimizer. -/
theorem minLoop_spec (d : ℕ → ℚ) (m : ℕ) (hm : 0 < m) :
    (minLoop d m).2 = some (d (minLoop d m).1) ∧
    (minLoop d m).1 < m ∧
    (∀ j, j < m → d (minLoop d m).1 ≤ d j) ∧
    (∀ j, j < (minLoop d m).1 → d (minLoop d m).1 < d j) := by
  induction m with
  | zero => exact absurd hm (by omega)
  | succ n ih =>
    rcases Nat.eq_zero_or_pos n with hn | hn
    · subst hn
      have h1 : minLoop d 1 = (0, some (d 0)) := by
        rw [minLoop_succ]
        rfl
      rw [h1]
      refine ⟨rfl, by omega, ?_, by omega⟩
      intro j hj
      have : j = 0 := by omega
      subst this
      exact le_refl _
    · obtain ⟨h1, h2, h3, h4⟩ := ih hn
      rcases hr : minLoop d n with ⟨bi, bd⟩
      rw [hr] at h1 h2 h3 h4
      simp only at h1 h2 h3 h4
      subst h1
      rw [minLoop_succ, hr]
      simp only [minStep]
      split_ifs with hlt
      · refine ⟨rfl, by omega, ?_, ?_⟩
        · intro j hj
          rcases Nat.lt_succ_iff_lt_or_eq.mp hj with hj' | hj'
          · exact le_trans (le_of_lt hlt) (h3 j hj')
          · subst hj'
            exact le_refl _
        · intro j hj
          exact lt_of_lt_of_le hlt (h3 j hj)
      · refine ⟨rfl, by omega, ?_, h4⟩
        intro j hj
        rcases Nat.lt_succ_iff_lt_or_eq.mp hj with hj' | hj'
        · exact h3 j hj'
        · subst hj'
          exact le_of_not_lt hlt

/-- C4: `nearestSegmentIndex` returns an in-range segment index whose
clamped-projection squared distance to `p` is minimal among all
consecutive segments, with ties broken by the lowest index (every strictly
smaller index has strictly larger distance); and on the vertices
`[(0,0),(0,10),(0,20)]` with point `(0,15)` it returns `1`. -/
theorem C4_nearest_segment (vertices : List (ℚ × ℚ)) (p : ℚ × ℚ)
    (h : 2 ≤ vertices.length) :
    (nearestSegmentIndex vertices p + 1 < vertices.length ∧
     (∀ j, j + 1 < vertices.length →
        segD vertices p (nearestSegmentIndex vertices p) ≤ segD vertices p j) ∧
     (∀ j, j < nearestSegmentIndex vertices p →
        segD vertices p (nearestSegmentIndex vertices p) < segD vertices p j)) ∧
    nearestSegmentIndex [((0 : ℚ), (0 : ℚ)), (0, 10), (0, 20)] (0, 15) = 1 := by
  have hm : 0 < vertices.length - 1 := by omega
  obtain ⟨h1, h2, h3, h4⟩ := minLoop_spec (segD vertices p) (vertices.length - 1) hm
  refine ⟨⟨?_, ?_, h4⟩,
    by norm_num [nearestSegmentIndex, minLoop, minStep, segD, segDist2, List.range_succ]⟩
  · show (minLoop (segD vertices p) (vertices.length - 1)).1 + 1 < vertices.length
    omega
  · intro j hj
    exact h3 j (by omega)

theorem C4_nearest_segment_witness :
    2 ≤ ([((0 : ℚ), (0 : ℚ)), (0, 10), (0, 20)] : List (ℚ × ℚ)).length ∧
    nearestSegmentIndex [((0 : ℚ), (0 : ℚ)), (0, 10), (0, 20)] (0, 15) + 1
      < ([((0 : ℚ), (0 : ℚ)), (0, 10), (0, 20)] : List (ℚ × ℚ)).length := by
  have h := C4_nearest_segment [((0 : ℚ), (0 : ℚ)), (0, 10), (0, 20)] (0, 15) (by decide)
  exact ⟨by decide, h.1.1⟩

/-! ## C5 -/

/-- C5: `addLink` appends a `straight` link with empty waypoints exactly
when no link with the same ordered pair exists, is a no-op otherwise, and
applying it twice to a store holding at most one such link leaves exactly
one link with that ordered pair. -/
theorem C5_addLink_spec (links : List Link) (s t : String) :
    ((∀ e ∈ links, ¬(e.source = s ∧ e.target = t)) →
      addLink links s t
        = links ++ [{ source := s, target := t, style := .straight, waypoints := some [],
                      curvy := none }]) ∧
    ((∃ e ∈ links, e.source = s ∧ e.target = t) → addLink links s t = links) ∧
    ((links.countP fun e => e.source == s && e.target == t) ≤ 1 →
      ((addLink (addLink links s t) s t).countP fun e => e.source == s && e.target == t)
        = 1) := by
  have hany : (links.any fun e => e.source == s && e.target == t) = true
      ↔ ∃ e ∈ links, e.source = s ∧ e.target = t := by
    simp [List.any_eq_true]
  refine ⟨?_, ?_, ?_⟩
  · intro h
    rw [addLink, if_neg]
    intro hc
    obtain ⟨e, he, h1, h2⟩ := hany.mp hc
    exact h e he ⟨h1, h2⟩
  · intro h
    rw [addLink, if_pos (hany.mpr h)]
  · intro hle
    by_cases hc : (links.any fun e => e.source == s && e.target == t) = true
    · have heq : addLink links s t = links := by rw [addLink, if_pos hc]
      rw [heq, heq]
      obtain ⟨e, he, h1, h2⟩ := hany.mp hc
      have hpos : 0 < links.countP fun e => e.source == s && e.target == t :=
        List.countP_pos_iff.mpr ⟨e, he, by simp [h1, h2]⟩
      omega
    · have heq : addLink links s t
          = links ++ [{ source := s, target := t, style := .straight, waypoints := some [],
                        curvy := none }] := by rw [addLink, if_neg hc]
      have h0 : (links.countP fun e => e.source == s && e.target == t) = 0 := by
        rw [List.countP_eq_zero]
        intro e he hpe
        exact hc (List.any_eq_true.mpr ⟨e, he, hpe⟩)
      have heq2 : addLink (addLink links s t) s t = addLink links s t := by
        rw [addLink, if_pos]
        rw [heq]
        refine List.any_eq_true.mpr
          ⟨_, List.mem_append_right links (List.mem_singleton.mpr rfl), ?_⟩
        simp
      rw [heq2, heq, List.countP_append, h0]
      simp [List.countP_cons]

theorem C5_addLink_spec_witness :
    addLink [] "a" "b"
      = [{ source := "a", target := "b", style := .straight, waypoints := some [],
           curvy := none }] ∧
    ((addLink (addLink [] "a" "b") "a" "b").countP
      fun e => e.source == "a" && e.target == "b") = 1 := by
  have h := C5_addLink_spec [] "a" "b"
  exact ⟨h.1 (by simp), h.2.2 (by simp)⟩

/-! ## C6 -/

/-- C6 counterexample: the claim's "no-op when the id is already absent"
fails.  `danglingState` is reached from the empty store by
`addLink "a" "b"` (the source `addLink` does not validate device ids), it
has no device `"a"`, yet `removeDevice "a"` removes the dangling link and
so changes the store. -/
theorem C6_removeDevice_counterexample :
    findDevice danglingState.devices "a" = none ∧
    removeDevice danglingState "a" ≠ danglingState := by decide

/-- C6 (amended): `removeDevice` deletes the device, removes every link
whose source or target equals the id, clears an edit session referencing
the id (back to `Idle`), and is idempotent; it is a no-op exactly when
the id names no device AND no link or active edit session references it
(a dangling link referencing an absent id is still removed). -/
theorem C6_removeDevice_cascade (st : AppState) (id : String) :
    (∀ d ∈ (removeDevice st id).devices, d.id ≠ id) ∧
    (∀ l ∈ (removeDevice st id).links, l.source ≠ id ∧ l.target ≠ id) ∧
    (∀ e, st.editingLink = some e → e.source = id ∨ e.target = id →
      (removeDevice st id).editingLink = none) ∧
    removeDevice (removeDevice st id) id = removeDevice st id ∧
    (findDevice st.devices id = none →
      (∀ l ∈ st.links, l.source ≠ id ∧ l.target ≠ id) →
      (∀ e, st.editingLink = some e → ¬(e.source = id ∨ e.target = id)) →
      removeDevice st id = st) := by
  obtain ⟨dev, lks, ed, dw⟩ := st
  refine ⟨?_, ?_, ?_, ?_, ?_⟩
  · intro d hd
    have := (List.mem_filter.mp hd).2
    simpa using this
  · intro l hl
    have := (List.mem_filter.mp hl).2
    simpa using this
  · intro e he href
    have he' : ed = some e := he
    subst he'
    simp only [removeDevice, Option.filter_some]
    rw [if_neg]
    rcases href with h | h <;> simp [h]
  · simp only [removeDevice, AppState.mk.injEq]
    refine ⟨?_, ?_, ?_, trivial⟩
    · exact List.filter_eq_self.mpr fun a ha => (List.mem_filter.mp ha).2
    · exact List.filter_eq_self.mpr fun a ha => (List.mem_filter.mp ha).2
    · cases ed with
      | none => rfl
      | some e =>
        rw [Option.filter_some]
        by_cases h : (!(e.source == id || e.target == id)) = true
        · rw [if_pos h, Option.filter_some, if_pos h]
        · rw [if_neg h, Option.filter_none]
  · intro h1 h2 h3
    simp only [removeDevice, AppState.mk.injEq]
    refine ⟨?_, ?_, ?_, trivial⟩
    · refine List.filter_eq_self.mpr fun d hd => ?_
      have := List.find?_eq_none.mp h1 d hd
      simpa using this
    · refine List.filter_eq_self.mpr fun l hl => ?_
      have := h2 l hl
      simp [this.1, this.2]
    · cases ed with
      | none => rfl
      | some e =>
        rw [Option.filter_some, if_pos]
        have := h3 e rfl
        simpa using this

theorem C6_removeDevice_cascade_witness :
    (∀ e : EditTarget, (none : Option EditTarget) = some e → e.source = "a" ∨ e.target = "a" →
      (removeDevice { devices := [], links := [], editingLink := none, draggingWp := none }
        "a").editingLink = none) ∧
    removeDevice { devices := [], links := [], editingLink := none, draggingWp := none } "a"
      = { devices := [], links := [], editingLink := none, draggingWp := none } := by
  have h := C6_removeDevice_cascade
    { devices := [], links := [], editingLink := none, draggingWp := none } "a"
  exact ⟨h.2.2.1, h.2.2.2.2 (by decide) (by simp) (by simp)⟩

/-! ## C7 -/

theorem findLink_updLinks (links : List Link) (s t : String) (f : Link → Link)
    (hf : ∀ l, (f l).source = l.source ∧ (f l).target = l.target) :
    findLink (updLinks links s t f) s t = (findLink links s t).map f := by
  induction links with
  | nil => rfl
  | cons l ls ih =>
    simp only [findLink] at ih ⊢
    have hstep : updLinks (l :: ls) s t f
        = (if (l.source == s && l.target == t) = true then f l else l) :: updLinks ls s t f := by
      simp [updLinks]
    rw [hstep]
    by_cases h : (l.source == s && l.target == t) = true
    · have hpf : ((f l).source == s && (f l).target == t) = true := by
        rw [(hf l).1, (hf l).2]
        exact h
      rw [if_pos h]
      simp only [List.find?_cons, hpf, h]
      rfl
    · have h' : (l.source == s && l.target == t) = false := by simpa using h
      rw [if_neg h]
      simp only [List.find?_cons, h']
      exact ih

theorem findLink_setLinkStyle (links : List Link) (s t : String) (y : LinkStyle) :
    findLink (setLinkStyle links s t y) s t
      = (findLink links s t).map fun l => { l with style := y } :=
  findLink_updLinks links s t _ fun _ => ⟨rfl, rfl⟩

theorem findLink_setLinkCurvy (links : List Link) (s t : String) (c : Bool) :
    findLink (setLinkCurvy links s t c) s t
      = (findLink links s t).map fun l => { l with curvy := some c } :=
  findLink_updLinks links s t _ fun _ => ⟨rfl, rfl⟩

theorem findLink_setLinkWaypoints (links : List Link) (s t : String) (w : List (ℚ × ℚ)) :
    findLink (setLinkWaypoints links s t w) s t
      = (findLink links s t).map fun l => { l with waypoints := some w } :=
  findLink_updLinks links s t _ fun _ => ⟨rfl, rfl⟩

theorem curvedPath_getElem? (a b : ℚ × ℚ) (c : ℚ) (n i : ℕ) (h : i < n + 1) :
    (curvedPath a b n c)[i]? = some (curveSample a b c ((i : ℚ) / (n : ℚ))) := by
  simp [curvedPath, List.getElem?_range h]

/-- Every seeded waypoint is an interior sample of the 36-segment curve:
a Bezier sample at `t = (j+1)/36` for some `j < 35`. -/
theorem seedFromCurve_mem_sample (A B w : ℚ × ℚ) (hw : w ∈ seedFromCurve A B) :
    ∃ j : ℕ, j < 35 ∧ w = curveSample A B (28 / 100) (((j : ℚ) + 1) / 36) := by
  simp only [seedFromCurve] at hw
  obtain ⟨x, hxmem, hxw⟩ := List.mem_map.mp hw
  have hx : x ∈ ((curvedPath A B 36 (28 / 100)).drop 1).dropLast.enum :=
    List.mem_filter.mp hxmem |>.1
  have hget := List.mem_enum_iff_getElem?.mp hx
  rw [List.getElem?_dropLast] at hget
  have hlen : ((curvedPath A B 36 (28 / 100)).drop 1).length = 36 := by
    simp [curvedPath_length]
  rw [hlen] at hget
  by_cases hb : x.1 < 36 - 1
  · rw [if_pos hb, List.getElem?_drop,
      curvedPath_getElem? A B (28 / 100) 36 (1 + x.1) (by omega)] at hget
    refine ⟨x.1, by omega, ?_⟩
    have hcast : ((1 + x.1 : ℕ) : ℚ) / (36 : ℚ) = ((x.1 : ℚ) + 1) / 36 := by
      push_cast
      ring
    rw [← hxw, ← hcast]
    exact (Option.some_inj.mp hget).symm
  · rw [if_neg hb] at hget
    exact absurd hget (by simp)

/-- The seeded waypoint list is never empty: the interior sample at enum
index 0 always survives the stride filter. -/
theorem seedFromCurve_ne_nil (A B : ℚ × ℚ) : seedFromCurve A B ≠ [] := by
  simp only [seedFromCurve]
  have hlen : ((curvedPath A B 36 (28 / 100)).drop 1).dropLast.length = 35 := by
    simp [curvedPath_length]
  obtain ⟨x, xs, hcons⟩ :=
    List.exists_cons_of_ne_nil (List.ne_nil_of_length_pos (by rw [hlen]; omega))
  rw [hcons]
  simp [List.enum_cons]

/-- Strict betweenness of the seeded waypoints for distinct endpoints:
each seeded point projects strictly between A and B along `B - A`, and
strictly to the bow side (positive component along the left perpendicular
`(-(B-A).2, (B-A).1)`). -/
theorem seedFromCurve_strictly_between (A B : ℚ × ℚ) (hAB : A ≠ B) (w : ℚ × ℚ)
    (hw : w ∈ seedFromCurve A B) :
    0 < (w.1 - A.1) * (B.1 - A.1) + (w.2 - A.2) * (B.2 - A.2) ∧
    (w.1 - A.1) * (B.1 - A.1) + (w.2 - A.2) * (B.2 - A.2)
      < (B.1 - A.1) ^ 2 + (B.2 - A.2) ^ 2 ∧
    0 < (w.1 - A.1) * (-(B.2 - A.2)) + (w.2 - A.2) * (B.1 - A.1) := by
  obtain ⟨j, hj, rfl⟩ := seedFromCurve_mem_sample A B w hw
  have hne : B.1 - A.1 ≠ 0 ∨ B.2 - A.2 ≠ 0 := by
    by_contra hc
    push_neg at hc
    apply hAB
    have h1 : A.1 = B.1 := by linarith [hc.1]
    have h2 : A.2 = B.2 := by linarith [hc.2]
    exact Prod.ext h1 h2
  have hL : 0 < (B.1 - A.1) ^ 2 + (B.2 - A.2) ^ 2 := by
    rcases hne with h | h
    · have := pow_two_pos_of_ne_zero h
      nlinarith [sq_nonneg (B.2 - A.2)]
    · have := pow_two_pos_of_ne_zero h
      nlinarith [sq_nonneg (B.1 - A.1)]
  have ht0 : 0 < ((j : ℚ) + 1) / 36 := by positivity
  have ht1 : ((j : ℚ) + 1) / 36 < 1 := by
    rw [div_lt_one (by norm_num : (0 : ℚ) < 36)]
    have : (j : ℚ) < 35 := by exact_mod_cast hj
    linarith
  have ht1' : 0 < 1 - ((j : ℚ) + 1) / 36 := by linarith
  have hdotV : ((curveSample A B (28 / 100) (((j : ℚ) + 1) / 36)).1 - A.1) * (B.1 - A.1)
      + ((curveSample A B (28 / 100) (((j : ℚ) + 1) / 36)).2 - A.2) * (B.2 - A.2)
      = (((j : ℚ) + 1) / 36) * ((B.1 - A.1) ^ 2 + (B.2 - A.2) ^ 2) := by
    simp only [curveSample]
    ring
  have hdotP : ((curveSample A B (28 / 100) (((j : ℚ) + 1) / 36)).1 - A.1) * (-(B.2 - A.2))
      + ((curveSample A B (28 / 100) (((j : ℚ) + 1) / 36)).2 - A.2) * (B.1 - A.1)
      = 2 * (((j : ℚ) + 1) / 36) * (1 - ((j : ℚ) + 1) / 36) * (28 / 100)
        * ((B.1 - A.1) ^ 2 + (B.2 - A.2) ^ 2) := by
    simp only [curveSample]
    ring
  refine ⟨?_, ?_, ?_⟩
  · rw [hdotV]
    exact mul_pos ht0 hL
  · rw [hdotV]
    calc (((j : ℚ) + 1) / 36) * ((B.1 - A.1) ^ 2 + (B.2 - A.2) ^ 2)
        < 1 * ((B.1 - A.1) ^ 2 + (B.2 - A.2) ^ 2) := mul_lt_mul_of_pos_right ht1 hL
      _ = (B.1 - A.1) ^ 2 + (B.2 - A.2) ^ 2 := one_mul _
  · rw [hdotP]
    nlinarith [mul_pos (mul_pos ht0 ht1') hL]

/-- C7: a begin-edit (context-menu) event on a rendered `curved` link
converts it to `custom` with `curvy = true` and waypoints seeded from the
36-segment curve, and enters `EditingLink`; for distinct endpoints the
seeded list is nonempty and every seeded point lies strictly between A and
B along the edge and strictly on the curve's bow side. -/
theorem C7_begin_edit_curved (st : AppState) (s t : String) (l : Link) (a b : Device)
    (hl : findLink st.links s t = some l) (hsty : l.style = .curved)
    (ha : findDevice st.devices s = some a) (hb : findDevice st.devices t = some b) :
    (step st (.contextMenuLink s t)).editingLink = some ⟨s, t⟩ ∧
    findLink (step st (.contextMenuLink s t)).links s t
      = some { l with style := .custom, curvy := some true, waypoints := some (seedFromCurve (a.coords.2, a.coords.1) (b.coords.2, b.coords.1)) } ∧
    (((a.coords.2, a.coords.1) : ℚ × ℚ) ≠ (b.coords.2, b.coords.1) →
      seedFromCurve (a.coords.2, a.coords.1) (b.coords.2, b.coords.1) ≠ [] ∧
      ∀ w ∈ seedFromCurve (a.coords.2, a.coords.1) (b.coords.2, b.coords.1),
        0 < (w.1 - a.coords.2) * (b.coords.2 - a.coords.2)
            + (w.2 - a.coords.1) * (b.coords.1 - a.coords.1) ∧
        (w.1 - a.coords.2) * (b.coords.2 - a.coords.2)
            + (w.2 - a.coords.1) * (b.coords.1 - a.coords.1)
          < (b.coords.2 - a.coords.2) ^ 2 + (b.coords.1 - a.coords.1) ^ 2 ∧
        0 < (w.1 - a.coords.2) * (-(b.coords.1 - a.coords.1))
            + (w.2 - a.coords.1) * (b.coords.2 - a.coords.2)) := by
  have hstep : step st (.contextMenuLink s t)
      = { st with
          links := (setLinkWaypoints (setLinkCurvy (setLinkStyle st.links s t .custom) s t true)
            s t (seedFromCurve (a.coords.2, a.coords.1) (b.coords.2, b.coords.1)))
          editingLink := some ⟨s, t⟩ } := by
    simp only [step, hl, ha, hb, hsty, if_true, eq_self_iff_true]
  refine ⟨by rw [hstep], ?_, ?_⟩
  · rw [hstep]
    show findLink (setLinkWaypoints (setLinkCurvy (setLinkStyle st.links s t .custom) s t true)
      s t (seedFromCurve (a.coords.2, a.coords.1) (b.coords.2, b.coords.1))) s t = _
    rw [findLink_setLinkWaypoints, findLink_setLinkCurvy, findLink_setLinkStyle, hl]
    rfl
  · intro hAB
    exact ⟨seedFromCurve_ne_nil _ _, fun w hw =>
      seedFromCurve_strictly_between (a.coords.2, a.coords.1) (b.coords.2, b.coords.1) hAB w hw⟩

theorem C7_begin_edit_curved_witness :
    (step curvedState (.contextMenuLink "x" "y")).editingLink = some ⟨"x", "y"⟩ ∧
    seedFromCurve ((0 : ℚ), (0 : ℚ)) ((0 : ℚ), (10 : ℚ)) ≠ [] := by
  have h := C7_begin_edit_curved curvedState "x" "y" ⟨"x", "y", .curved, none, none⟩
    ⟨"x", "X", (0, 0), .available, 0, 0⟩ ⟨"y", "Y", (10, 0), .available, 0, 0⟩
    (by decide) rfl (by decide) (by decide)
  exact ⟨h.1, (h.2.2 (by decide)).1⟩

/-! ## C8 -/

/-- C8 counterexample: the invariant "`DraggingWaypoint` is active only
while the same link is in `EditingLink`" is not preserved by every
operation.  From the sample data, begin-edit on the custom link
`("c","d")` followed by a drag-start reaches a state satisfying the
invariant, and `removeDevice "c"` then clears `editingLink` without
clearing `draggingWp`, breaking it. -/
theorem C8_invariant_counterexample :
    sessionInvariantB dragState = true ∧
    sessionInvariantB (step dragState (.removeDevice "c")) = false := by decide

/-- C8 (amended): the invariant is preserved by the cancel (Escape),
background right-click, mouse-up, drag start/move/end, path click/press,
alt-click-delete and `addLink` operations; `removeDevice`, `removeLink`,
a begin-edit and the direct style-set actions are not in this list (the
first three can clear or retarget `EditingLink` while `draggingWp` stays
set). -/
theorem sessionInvariantB_of (st st' : AppState) (hdw : st'.draggingWp = st.draggingWp)
    (hed : st'.editingLink = st.editingLink) (h : sessionInvariantB st = true) :
    sessionInvariantB st' = true := by
  rw [← h]
  simp only [sessionInvariantB, hdw, hed]

theorem C8_drag_invariant_amended (st : AppState) (e : Event)
    (hsafe : sessionSafe e = true) (hinv : sessionInvariantB st = true) :
    sessionInvariantB (step st e) = true := by
  cases e with
  | removeDevice id => exact absurd hsafe (by simp [sessionSafe])
  | removeLink s t => exact absurd hsafe (by simp [sessionSafe])
  | contextMenuLink s t => exact absurd hsafe (by simp [sessionSafe])
  | setStyle s t y => exact absurd hsafe (by simp [sessionSafe])
  | addLink s t => exact hinv
  | mouseUp => rfl
  | contextMenuMap =>
    simp only [step]
    split
    · rfl
    · exact hinv
  | escape =>
    simp only [step]
    split
    · rfl
    · exact hinv
  | pathClick s t p =>
    rcases hfl : findLink st.links s t with _ | l
    · simp only [step, hfl]
      exact hinv
    · rcases hfa : findDevice st.devices s with _ | a
      · simp only [step, hfl, hfa]
        exact hinv
      · rcases hfb : findDevice st.devices t with _ | b
        · simp only [step, hfl, hfa, hfb]
          exact hinv
        · simp only [step, hfl, hfa, hfb]
          by_cases hc : st.editingLink = some ⟨s, t⟩ ∧ l.style = .custom
          · rw [if_pos hc]
            exact hinv
          · rw [if_neg hc]
            exact hinv
  | pathPress s t p =>
    rcases hfl : findLink st.links s t with _ | l
    · simp only [step, hfl]
      exact hinv
    · rcases hfa : findDevice st.devices s with _ | a
      · simp only [step, hfl, hfa]
        exact hinv
      · rcases hfb : findDevice st.devices t with _ | b
        · simp only [step, hfl, hfa, hfb]
          exact hinv
        · simp only [step, hfl, hfa, hfb]
          by_cases hc : st.editingLink = some ⟨s, t⟩ ∧ l.style = .custom
          · rw [if_pos hc]
            simp [sessionInvariantB, hc.1]
          · rw [if_neg hc]
            exact hinv
  | dragStart i =>
    rcases hed : st.editingLink with _ | e
    · simp only [step, hed]
      exact hinv
    · rcases hfl : findLink st.links e.source e.target with _ | l
      · simp only [step, hed, hfl]
        exact hinv
      · simp only [step, hed, hfl]
        by_cases hc : l.style = .custom ∧ i < (l.waypoints.getD []).length
        · rw [if_pos hc]
          simp [sessionInvariantB, hed]
        · rw [if_neg hc]
          exact hinv
  | dragMove p =>
    rcases hdw : st.draggingWp with _ | w
    · simp only [step, hdw]
      exact hinv
    · rcases hfl : findLink st.links w.source w.target with _ | l
      · simp only [step, hdw, hfl]
        exact hinv
      · simp only [step, hdw, hfl]
        by_cases h1 : l.style = .custom
        · rw [if_pos h1]
          by_cases h2 : w.index < (l.waypoints.getD []).length
          · rw [if_pos h2]
            exact sessionInvariantB_of st _ hdw.symm rfl hinv
          · rw [if_neg h2]
            exact hinv
        · rw [if_neg h1]
          exact hinv
  | dragEnd i p =>
    rcases hed : st.editingLink with _ | e
    · simp only [step, hed]
      exact hinv
    · rcases hfl : findLink st.links e.source e.target with _ | l
      · simp only [step, hed, hfl]
        exact hinv
      · simp only [step, hed, hfl]
        by_cases hc : l.style = .custom ∧ i < (l.waypoints.getD []).length
        · rw [if_pos hc]
          rfl
        · rw [if_neg hc]
          exact hinv
  | altClickHandle i =>
    rcases hed : st.editingLink with _ | e
    · simp only [step, hed]
      exact hinv
    · rcases hfl : findLink st.links e.source e.target with _ | l
      · simp only [step, hed, hfl]
        exact hinv
      · simp only [step, hed, hfl]
        by_cases hc : l.style = .custom ∧ i < (l.waypoints.getD []).length
        · rw [if_pos hc]
          exact sessionInvariantB_of st _ rfl hed.symm hinv
        · rw [if_neg hc]
          exact hinv

theorem C8_drag_invariant_amended_witness :
    sessionSafe .mouseUp = true ∧
    sessionInvariantB initState = true ∧
    sessionInvariantB (step initState .mouseUp) = true := by
  have h := C8_drag_invariant_amended initState .mouseUp (by decide) (by decide)
  exact ⟨by decide, by decide, h⟩

/-! ## C9 -/

/-- C9: a drag-move event with `DraggingWaypoint(w)` active leaves the
whole state unchanged whenever the target link no longer exists, its
style is not `custom`, or the index is out of the waypoint bounds; and
otherwise overwrites exactly `waypoints[index]` with the new point,
leaving devices, `editingLink` and `draggingWp` unchanged. -/
theorem C9_drag_move (st : AppState) (w : DragTarget) (p : ℚ × ℚ)
    (hdw : st.draggingWp = some w) :
    (findLink st.links w.source w.target = none → step st (.dragMove p) = st) ∧
    (∀ l, findLink st.links w.source w.target = some l → l.style ≠ .custom →
      step st (.dragMove p) = st) ∧
    (∀ l, findLink st.links w.source w.target = some l → l.style = .custom →
      (l.waypoints.getD []).length ≤ w.index → step st (.dragMove p) = st) ∧
    (∀ l, findLink st.links w.source w.target = some l → l.style = .custom →
      w.index < (l.waypoints.getD []).length →
      step st (.dragMove p)
        = { st with links := (setLinkWaypoints st.links w.source w.target
            ((l.waypoints.getD []).set w.index p)) } ∧
      findLink (step st (.dragMove p)).links w.source w.target
        = some { l with waypoints := some ((l.waypoints.getD []).set w.index p) }) := by
  refine ⟨?_, ?_, ?_, ?_⟩
  · intro hfl
    simp only [step, hdw, hfl]
  · intro l hfl hsty
    simp only [step, hdw, hfl, if_neg hsty]
  · intro l hfl hsty hlen
    simp only [step, hdw, hfl, if_pos hsty,
      if_neg (by omega : ¬ w.index < (l.waypoints.getD []).length)]
  · intro l hfl hsty hlen
    have hstep : step st (.dragMove p)
        = { st with links := (setLinkWaypoints st.links w.source w.target
            ((l.waypoints.getD []).set w.index p)) } := by
      simp only [step, hdw, hfl, if_pos hsty, if_pos hlen]
    refine ⟨hstep, ?_⟩
    rw [hstep]
    show findLink (setLinkWaypoints st.links w.source w.target
      ((l.waypoints.getD []).set w.index p)) w.source w.target = _
    rw [findLink_setLinkWaypoints, hfl]
    rfl

theorem C9_drag_move_witness :
    step dragState (.dragMove (1, 2))
      = { dragState with links := (setLinkWaypoints dragState.links "c" "d" [(1, 2)]) } := by
  have h := C9_drag_move dragState ⟨"c", "d", 0⟩ (1, 2) (by decide)
  exact (h.2.2.2 ⟨"c", "d", .custom, some [(45, 10)], some false⟩ (by decide) rfl
    (by decide)).1

end MapNetwork
